import Mathlib

/-!
Shallow embedding of the `vector.h` dynamic-array library (vector-lib).

Modelling conventions:
* `size_t` values are `Nat`s understood to lie below `W = 2 ^ 64`; every C
  arithmetic operation that can wrap is written with an explicit `% W`,
  while the library's checked helpers `_safe_add` / `_safe_mul` are
  modelled exactly as in the source (pre-checks against `SIZE_MAX`).
* A heap byte buffer is a `List Nat` of its bytes; the `NULL` buffer is the
  empty list (in the library `data` is `NULL` exactly when the allocation
  size is zero).  `memcpy`/`memmove`/`memset` become list splices
  (`writeBytes`), which matches `memmove` because the source bytes are read
  from the pre-write list.
* Allocation is modelled as always succeeding: `malloc`/`calloc`/`realloc`
  failure is environmental, and every such failure path in the source
  returns `-1`/`NULL` with the container unchanged.  `realloc` preserves
  the common prefix and leaves the fresh tail unspecified, modelled by the
  marker byte `junkByte`.
* Status returns are `Int` (`0` success, `-1` failure); functions that
  return a pointer-or-`NULL` return an `Option`.  Public operations take an
  `Option vector` so that the `NULL` handle is representable; the unlocked
  internals take a plain `vector`, mirroring the source split.
* Locking is invisible to the sequential semantics and is not modelled.
-/

/-- Modulus of the native unsigned size type (64-bit `size_t`). -/
def W : Nat := 2 ^ 64

/-- Value of `SIZE_MAX` for the 64-bit `size_t`. -/
def SIZE_MAX : Nat := W - 1

/-- Model of `_safe_add`: checked addition, `if (b > SIZE_MAX - a) return -1;`. -/
def _safe_add (a b : Nat) : Option Nat :=
  if b > SIZE_MAX - a then none else some (a + b)

/-- Model of `_safe_mul`: checked multiplication, `if (a && b > SIZE_MAX / a) return -1;`. -/
def _safe_mul (a b : Nat) : Option Nat :=
  if a ≠ 0 ∧ b > SIZE_MAX / a then none else some (a * b)

/-- Marker for bytes whose value the C leaves unspecified (fresh `realloc` tail). -/
def junkByte : Nat := 170

/-- Read `n` bytes at byte offset `off` (C pointer arithmetic plus `memcpy` source). -/
def readBytes (d : List Nat) (off n : Nat) : List Nat :=
  (d.drop off).take n

/-- Overwrite the buffer at byte offset `off` with the bytes `src`
(`memcpy`/`memmove` destination, source bytes taken from the pre-write list). -/
def writeBytes (d : List Nat) (off : Nat) (src : List Nat) : List Nat :=
  d.take off ++ src ++ d.drop (off + src.length)

/-- Model of `realloc` on the byte-list level: prefix preserved, fresh tail unspecified. -/
def reallocBytes (d : List Nat) (newSize : Nat) : List Nat :=
  d.take newSize ++ List.replicate (newSize - d.length) junkByte

/-- The `vector` struct: byte buffer, live length, slot capacity, element size
(the allocator triple and the rwlock carry no sequential state). -/
structure vector where
  data : List Nat
  length : Nat
  capacity : Nat
  element_size : Nat
deriving DecidableEq, Repr

/-- The bytes of element `i` (used to state theorems; offsets are exact here
because stated containers satisfy the size invariant). -/
def elem (v : vector) (i : Nat) : List Nat :=
  readBytes v.data (i * v.element_size) v.element_size

/-- The §3 data-model invariant of a well-formed container: `length ≤ capacity`,
`capacity * element_size` representable, the buffer holds exactly
`capacity * element_size` bytes, and the element size is non-zero. -/
def WF (v : vector) : Prop :=
  v.length ≤ v.capacity ∧ v.capacity * v.element_size ≤ SIZE_MAX ∧
    v.data.length = v.capacity * v.element_size ∧ 0 < v.element_size ∧
    v.element_size ≤ SIZE_MAX

instance (v : vector) : Decidable (WF v) := by
  unfold WF; infer_instance

/-- Model of `_vector_at`: `if (!vec || index >= vec->length) return NULL;` then the
element address; modelled as the element's bytes. -/
def _vector_at (vec : Option vector) (index : Nat) : Option (List Nat) :=
  match vec with
  | none => none
  | some v =>
    if index ≥ v.length then none
    else some (readBytes v.data ((index * v.element_size) % W) v.element_size)

/-- Model of `_vector_create_base`: checked `element_size * num_elements`, zeroed
`calloc` buffer (`NULL`, i.e. `[]`, when the byte size is zero), and
`length = capacity = num_elements`.  `malloc`/`calloc`/rwlock-init failures
are environmental and modelled as success. -/
def _vector_create_base (element_size num_elements : Nat) : Option vector :=
  match _safe_mul element_size num_elements with
  | none => none
  | some _alloc_size =>
    some { data := List.replicate (num_elements * element_size) 0
         , length := num_elements
         , capacity := num_elements
         , element_size := element_size }

/-- The `arg_count == 1` loop of `_vector_create_with_values`:
`for (i = 0; i < n; ++i) memcpy(data + i*element_size, values, element_size);`. -/
def broadcastLoop (element_size : Nat) (values : List Nat) :
    List Nat → Nat → List Nat
  | d, 0 => d
  | d, i + 1 =>
    writeBytes (broadcastLoop element_size values d i) ((i * element_size) % W)
      (values.take element_size)

/-- Model of `_vector_create_with_values`: zero values keep the `calloc` zeros, one
value is broadcast into every slot, up to `num_elements` values fill a prefix
(rest already zero), and more than `num_elements` values is an error that
frees the fresh container and returns `NULL`. -/
def _vector_create_with_values (element_size num_elements arg_count : Nat)
    (values : List Nat) : Option vector :=
  match _vector_create_base element_size num_elements with
  | none => none
  | some vec =>
    if arg_count = 0 then some vec
    else if arg_count = 1 then
      some { vec with data := broadcastLoop element_size values vec.data num_elements }
    else if arg_count ≤ num_elements then
      let d := writeBytes vec.data 0 (values.take ((arg_count * element_size) % W))
      some { vec with data := d }
    else none

/-- Model of `_vector_append_internal`: early `0` for zero values, checked
`length + num_values`, growth to `capacity ? capacity + capacity/2 : num_values`
floored at the total, checked byte size, `realloc`, `memcpy` at the end,
then `length = total_elements`. -/
def _vector_append_internal (v : vector) (num_values : Nat) (values : List Nat) :
    Int × vector :=
  if num_values = 0 then (0, v)
  else
    match _safe_add v.length num_values with
    | none => (-1, v)
    | some total_elements =>
      if total_elements > v.capacity then
        let new_capacity0 :=
          if v.capacity = 0 then num_values else (v.capacity + v.capacity / 2) % W
        let new_capacity :=
          if new_capacity0 < total_elements then total_elements else new_capacity0
        match _safe_mul new_capacity v.element_size with
        | none => (-1, v)
        | some new_size =>
          let new_data := reallocBytes v.data new_size
          let d := writeBytes new_data ((v.length * v.element_size) % W)
            (values.take ((num_values * v.element_size) % W))
          (0, { v with data := d, length := total_elements, capacity := new_capacity })
      else
        let d := writeBytes v.data ((v.length * v.element_size) % W)
          (values.take ((num_values * v.element_size) % W))
        (0, { v with data := d, length := total_elements })

/-- Model of `_vector_reserve_internal`: no-op below current capacity, checked byte
size, `realloc` to exactly `new_capacity` slots. -/
def _vector_reserve_internal (v : vector) (new_capacity : Nat) : Int × vector :=
  if new_capacity ≤ v.capacity then (0, v)
  else
    match _safe_mul new_capacity v.element_size with
    | none => (-1, v)
    | some new_size =>
      (0, { v with data := reallocBytes v.data new_size, capacity := new_capacity })

/-- Model of `_vector_insert_internal`: early `0` for zero values, `index > length`
rejected, checked total, growth through `_vector_reserve_internal` with the
append policy, suffix `memmove` right by `num_values` slots, value `memcpy`,
then `length = total_elements`. -/
def _vector_insert_internal (v : vector) (index num_values : Nat)
    (values : List Nat) : Int × vector :=
  if num_values = 0 then (0, v)
  else if index > v.length then (-1, v)
  else
    match _safe_add v.length num_values with
    | none => (-1, v)
    | some total_elements =>
      let grown : Option vector :=
        if total_elements > v.capacity then
          let new_capacity0 :=
            if v.capacity = 0 then num_values else (v.capacity + v.capacity / 2) % W
          let new_capacity :=
            if new_capacity0 < total_elements then total_elements else new_capacity0
          let r := _vector_reserve_internal v new_capacity
          if r.1 = -1 then none else some r.2
        else some v
      match grown with
      | none => (-1, v)
      | some v1 =>
        let es := v1.element_size
        let d1 :=
          if index < v1.length then
            writeBytes v1.data (((index + num_values) % W * es) % W)
              (readBytes v1.data ((index * es) % W) (((v1.length - index) * es) % W))
          else v1.data
        let d2 := writeBytes d1 ((index * es) % W) (values.take ((num_values * es) % W))
        (0, { v1 with data := d2, length := total_elements })

/-- Model of `_vector_prepend_internal`: it is `_vector_insert_internal` at index 0. -/
def _vector_prepend_internal (v : vector) (num_values : Nat)
    (values : List Nat) : Int × vector :=
  _vector_insert_internal v 0 num_values values

/-- Model of `_vector_pop_internal` on a non-`NULL` vector: `NULL` on empty *before*
any allocator call, otherwise one `alloc`, copy of the last element, and a
length decrement.  The final `Nat` counts the allocator calls made. -/
def _vector_pop_core (v : vector) : Option (List Nat) × vector × Nat :=
  if v.length = 0 then (none, v, 0)
  else
    (some (readBytes v.data (((v.length - 1) * v.element_size) % W) v.element_size),
     { v with length := v.length - 1 }, 1)

/-- Model of `_vector_remove_internal`: the bounds check `index >= length ||
index + num_elements > length` and the later subtractions are `size_t`
arithmetic, hence the explicit `% W` wrap; suffix `memmove` left over the
gap, then `length -= num_elements`. -/
def _vector_remove_internal (v : vector) (index num_elements : Nat) :
    Int × vector :=
  if index ≥ v.length ∨ (index + num_elements) % W > v.length then (-1, v)
  else if num_elements = 0 then (0, v)
  else
    let elements_to_move := ((v.length - index) + W - num_elements) % W
    let es := v.element_size
    let d :=
      if elements_to_move > 0 then
        writeBytes v.data ((index * es) % W)
          (readBytes v.data (((index + num_elements) % W * es) % W)
            ((elements_to_move * es) % W))
      else v.data
    (0, { v with data := d, length := (v.length + W - num_elements) % W })

/-- Model of `_vector_resize_internal`: growth (when `new_length > capacity`) to
`capacity ? capacity * 2 : new_length` floored at `new_length` through
`_vector_reserve_internal`, `memset` zero fill of the newly exposed region
when the length grows, then `length = new_length`. -/
def _vector_resize_internal (v : vector) (new_length : Nat) : Int × vector :=
  let grown : Option vector :=
    if new_length > v.capacity then
      let new_capacity0 := if v.capacity ≠ 0 then (v.capacity * 2) % W else new_length
      let new_capacity :=
        if new_capacity0 < new_length then new_length else new_capacity0
      let r := _vector_reserve_internal v new_capacity
      if r.1 = -1 then none else some r.2
    else some v
  match grown with
  | none => (-1, v)
  | some v1 =>
    let es := v1.element_size
    let d :=
      if new_length > v1.length then
        writeBytes v1.data ((v1.length * es) % W)
          (List.replicate (((new_length - v1.length) * es) % W) 0)
      else v1.data
    (0, { v1 with data := d, length := new_length })

/-- Little-endian base-256 digits of `n`, `k` bytes (`fwrite` of a `size_t`
object on the little-endian platforms the library targets). -/
def toDigitsLE : Nat → Nat → List Nat
  | 0, _ => []
  | k + 1, n => n % 256 :: toDigitsLE k (n / 256)

/-- Value of a little-endian base-256 byte list (`fread` into a `size_t`). -/
def decodeLE (l : List Nat) : Nat :=
  l.foldr (fun b acc => b + 256 * acc) 0

/-- One `fread(&x, sizeof(size_t), 1, fp)` from a byte stream. -/
def readSizeT (s : List Nat) : Option (Nat × List Nat) :=
  if s.length < 8 then none
  else some (decodeLE (s.take 8), s.drop 8)

/-- Model of `_vector_serialize_internal`: `length`, then `element_size`, then the
`length * element_size` live bytes.  `fwrite` failure is environmental I/O
and modelled as success (the produced stream). -/
def _vector_serialize_internal (v : vector) : List Nat :=
  toDigitsLE 8 v.length ++ toDigitsLE 8 v.element_size ++
    readBytes v.data 0 ((v.length * v.element_size) % W)

/-- Model of `_vector_deserialize_internal`: reads the two header fields, rejects an
`element_size` mismatch, builds a container of exactly `length` elements, and
fails (freeing it) when fewer than `length` payload items are available. -/
def _vector_deserialize_internal (s : List Nat) (element_size : Nat) :
    Option vector :=
  match readSizeT s with
  | none => none
  | some (length, s1) =>
    match readSizeT s1 with
    | none => none
    | some (read_element_size, s2) =>
      if read_element_size ≠ element_size then none
      else
        match _vector_create_base element_size length with
        | none => none
        | some vec =>
          if s2.length < length * element_size then none
          else some { vec with data := writeBytes vec.data 0 (s2.take (length * element_size)) }

/-- Model of `_vector_shrink_to_fit_internal`: no-op when already tight, checked
`length * element_size`, `realloc` down when `length > 0`, and
free-plus-`NULL` when `length == 0`; capacity becomes `length`. -/
def _vector_shrink_to_fit_internal (v : vector) : Int × vector :=
  if v.capacity = v.length then (0, v)
  else
    match _safe_mul v.length v.element_size with
    | none => (-1, v)
    | some new_size =>
      let new_data := if v.length ≠ 0 then reallocBytes v.data new_size else []
      (0, { v with data := new_data, capacity := v.length })

/-- Model of `_vector_swap_internal`: bounds check, `i == j` no-op, three `memcpy`s
through a one-element temporary. -/
def _vector_swap_internal (v : vector) (idx1 idx2 : Nat) : Int × vector :=
  if idx1 ≥ v.length ∨ idx2 ≥ v.length then (-1, v)
  else if idx1 = idx2 then (0, v)
  else
    let es := v.element_size
    let temp := readBytes v.data ((idx1 * es) % W) es
    let e2 := readBytes v.data ((idx2 * es) % W) es
    let d := writeBytes (writeBytes v.data ((idx1 * es) % W) e2) ((idx2 * es) % W) temp
    (0, { v with data := d })

/-- Model of `_vector_find_internal`: `-1` on a `NULL` vector, else the first index
whose element compares equal under the caller's three-way comparator, which
receives the vector as context; steps by the *passed* `element_size`. -/
def _vector_find_internal (vec : Option vector) (value : List Nat)
    (element_size : Nat) (compar : List Nat → List Nat → vector → Int) : Int :=
  match vec with
  | none => -1
  | some v =>
    match (List.range v.length).find?
        (fun i => compar (readBytes v.data ((i * element_size) % W) element_size)
          value v == 0) with
    | some i => Int.ofNat i
    | none => -1

/-- Public `vector_clear`: `-1` on `NULL`, else `length = 0`. -/
def vector_clear (vec : Option vector) : Int × Option vector :=
  match vec with
  | none => (-1, none)
  | some v => (0, some { v with length := 0 })

/-- Public `vector_copy`: `NULL` on `NULL` source, else a fresh container of
capacity `length` with the live bytes copied in. -/
def vector_copy (vec : Option vector) : Option vector :=
  match vec with
  | none => none
  | some v =>
    match _vector_create_base v.element_size v.length with
    | none => none
    | some dst =>
      let d := writeBytes dst.data 0 (readBytes v.data 0 ((v.length * v.element_size) % W))
      some { dst with data := d, length := v.length }

/-- Public `vector_length`: 0 on `NULL`. -/
def vector_length (vec : Option vector) : Nat :=
  match vec with
  | none => 0
  | some v => v.length

/-- Public `vector_capacity`: 0 on `NULL`. -/
def vector_capacity (vec : Option vector) : Nat :=
  match vec with
  | none => 0
  | some v => v.capacity

/-- Public `vector_is_empty`: `true` on `NULL`. -/
def vector_is_empty (vec : Option vector) : Bool :=
  match vec with
  | none => true
  | some v => v.length = 0

/-- Public `vector_remove`: `-1` on `NULL`, else the internal remove. -/
def vector_remove (vec : Option vector) (index num_elements : Nat) :
    Int × Option vector :=
  match vec with
  | none => (-1, none)
  | some v =>
    let r := _vector_remove_internal v index num_elements
    (r.1, some r.2)

/-- Public `vector_reserve`: `-1` on `NULL`, else the internal reserve. -/
def vector_reserve (vec : Option vector) (new_capacity : Nat) :
    Int × Option vector :=
  match vec with
  | none => (-1, none)
  | some v =>
    let r := _vector_reserve_internal v new_capacity
    (r.1, some r.2)

/-- Public `vector_resize`: `-1` on `NULL`, else the internal resize. -/
def vector_resize (vec : Option vector) (new_length : Nat) :
    Int × Option vector :=
  match vec with
  | none => (-1, none)
  | some v =>
    let r := _vector_resize_internal v new_length
    (r.1, some r.2)

/-- Public `vector_serialize`: `-1` (here `none`) on a `NULL` vector, else
the produced stream. -/
def vector_serialize (vec : Option vector) : Option (List Nat) :=
  match vec with
  | none => none
  | some v => some (_vector_serialize_internal v)

/-- Public `vector_shrink_to_fit`: `-1` on `NULL`, else the internal shrink. -/
def vector_shrink_to_fit (vec : Option vector) : Int × Option vector :=
  match vec with
  | none => (-1, none)
  | some v =>
    let r := _vector_shrink_to_fit_internal v
    (r.1, some r.2)

/-- Public `vector_swap`: `-1` on `NULL`, else the internal swap. -/
def vector_swap (vec : Option vector) (idx1 idx2 : Nat) : Int × Option vector :=
  match vec with
  | none => (-1, none)
  | some v =>
    let r := _vector_swap_internal v idx1 idx2
    (r.1, some r.2)

/-- Public `vector_append` macro: explicit `NULL` check returning `-1`, else
the internal append under the write lock. -/
def vector_append (vec : Option vector) (num_values : Nat) (values : List Nat) :
    Int × Option vector :=
  match vec with
  | none => (-1, none)
  | some v =>
    let r := _vector_append_internal v num_values values
    (r.1, some r.2)

/-- Public `vector_insert` macro: on `NULL` the locked internal itself
returns `-1` with nothing touched. -/
def vector_insert (vec : Option vector) (index num_values : Nat)
    (values : List Nat) : Int × Option vector :=
  match vec with
  | none => (-1, none)
  | some v =>
    let r := _vector_insert_internal v index num_values values
    (r.1, some r.2)

/-- Public `vector_prepend` macro: insert at index 0. -/
def vector_prepend (vec : Option vector) (num_values : Nat)
    (values : List Nat) : Int × Option vector :=
  match vec with
  | none => (-1, none)
  | some v =>
    let r := _vector_prepend_internal v num_values values
    (r.1, some r.2)

/-- Public `vector_pop`: `NULL` (with no allocator call) on a `NULL` or empty
vector, else the freshly allocated copy of the last element; the `Nat` counts
allocator calls. -/
def vector_pop (vec : Option vector) : Option (List Nat) × Option vector × Nat :=
  match vec with
  | none => (none, none, 0)
  | some v =>
    let r := _vector_pop_core v
    (r.1, some r.2.1, r.2.2)

/-- Modelled from the spec: `vector_pop_to` is referenced by the repository's
tests and documentation but its implementation is not among the source files.
Spec §4.2: "A companion `pop_to(destination)` copies the last element directly
into caller-provided storage and decrements length, avoiding any extra
allocation", and Scenario F: on an empty container it returns failure and
leaves the destination untouched.  `dest` is the caller's element-sized
storage; the final `Nat` counts allocator calls (none are ever made). -/
def vector_pop_to (vec : Option vector) (dest : List Nat) :
    Int × Option vector × List Nat × Nat :=
  match vec with
  | none => (-1, none, dest, 0)
  | some v =>
    if v.length = 0 then (-1, some v, dest, 0)
    else
      (0, some { v with length := v.length - 1 },
       writeBytes dest 0
         (readBytes v.data (((v.length - 1) * v.element_size) % W) v.element_size),
       0)

/-- Public `vector_set` macro: looks the slot up through `_vector_at` and
writes the value only when the lookup succeeded (silent no-op otherwise). -/
def vector_set (vec : Option vector) (index : Nat) (value : List Nat) :
    Option vector :=
  match vec with
  | none => none
  | some v =>
    if index ≥ v.length then some v
    else
      let d := writeBytes v.data ((index * v.element_size) % W) (value.take v.element_size)
      some { v with data := d }

/-! ### Helper lemmas about the byte-level primitives -/

theorem _safe_add_eq {a b : Nat} (h : a + b ≤ SIZE_MAX) :
    _safe_add a b = some (a + b) := by
  unfold _safe_add
  rw [if_neg (by omega)]

theorem _safe_mul_eq {a b : Nat} (h : a * b ≤ SIZE_MAX) :
    _safe_mul a b = some (a * b) := by
  unfold _safe_mul
  rw [if_neg]
  rintro ⟨ha, hb⟩
  have h2 : b * a ≤ SIZE_MAX := by rw [Nat.mul_comm]; exact h
  have h3 : b ≤ SIZE_MAX / a := (Nat.le_div_iff_mul_le (Nat.pos_of_ne_zero ha)).mpr h2
  omega

theorem length_writeBytes {d src : List Nat} {off : Nat}
    (h : off + src.length ≤ d.length) : (writeBytes d off src).length = d.length := by
  simp [writeBytes]
  omega

theorem length_reallocBytes (d : List Nat) (n : Nat) :
    (reallocBytes d n).length = n := by
  simp [reallocBytes]
  omega

theorem reallocBytes_of_le {d : List Nat} {n : Nat} (h : d.length ≤ n) :
    reallocBytes d n = d ++ List.replicate (n - d.length) junkByte := by
  unfold reallocBytes
  rw [List.take_of_length_le h]

theorem readBytes_take {d : List Nat} {cut a m : Nat} (h : a + m ≤ cut) :
    readBytes (d.take cut) a m = readBytes d a m := by
  unfold readBytes
  rw [List.drop_take, List.take_take]
  congr 1
  omega

theorem readBytes_append_left {d t : List Nat} {a m : Nat} (h : a + m ≤ d.length) :
    readBytes (d ++ t) a m = readBytes d a m := by
  unfold readBytes
  rw [List.drop_append_of_le_length (by omega),
      List.take_append_of_le_length (by simp [List.length_drop]; omega)]

theorem readBytes_writeBytes_window {d src : List Nat} {off a m : Nat}
    (hoff : off ≤ d.length) (ham : a + m ≤ src.length) :
    readBytes (writeBytes d off src) (off + a) m = readBytes src a m := by
  unfold writeBytes readBytes
  have hlen : (List.take off d).length = off := by
    simp [List.length_take]; omega
  rw [List.append_assoc, show off + a = (List.take off d).length + a by rw [hlen],
      List.drop_append, List.drop_append_of_le_length (by omega),
      List.take_append_of_le_length (by simp [List.length_drop]; omega)]

theorem readBytes_writeBytes_left {d src : List Nat} {off a m : Nat}
    (h : a + m ≤ off) (hoff : off ≤ d.length) :
    readBytes (writeBytes d off src) a m = readBytes d a m := by
  unfold writeBytes readBytes
  rw [List.append_assoc,
      List.drop_append_of_le_length (by simp [List.length_take]; omega),
      List.take_append_of_le_length (by simp [List.length_drop, List.length_take]; omega),
      List.drop_take, List.take_take]
  congr 1
  omega

theorem readBytes_replicate {k a m : Nat} (c : Nat) (h : a + m ≤ k) :
    readBytes (List.replicate k c) a m = List.replicate m c := by
  unfold readBytes
  rw [List.drop_replicate, List.take_replicate]
  congr 1
  omega

theorem writeBytes_zero (d src : List Nat) :
    writeBytes d 0 src = src ++ d.drop src.length := by
  simp [writeBytes]

/-! ### Helper lemmas about the size-field encoding -/

theorem toDigitsLE_length (k n : Nat) : (toDigitsLE k n).length = k := by
  induction k generalizing n with
  | zero => rfl
  | succ k ih => simp [toDigitsLE, ih]

theorem decodeLE_toDigitsLE (k n : Nat) : decodeLE (toDigitsLE k n) = n % 256 ^ k := by
  induction k generalizing n with
  | zero => simp [toDigitsLE, decodeLE, Nat.mod_one]
  | succ k ih =>
    show n % 256 + 256 * decodeLE (toDigitsLE k (n / 256)) = n % 256 ^ (k + 1)
    rw [ih, Nat.pow_succ']
    exact (Nat.mod_mul).symm

theorem readSizeT_encode {n : Nat} (h : n < W) (rest : List Nat) :
    readSizeT (toDigitsLE 8 n ++ rest) = some (n, rest) := by
  have hl : (toDigitsLE 8 n).length = 8 := toDigitsLE_length 8 n
  have hd : decodeLE (toDigitsLE 8 n) = n := by
    rw [decodeLE_toDigitsLE]
    have h256 : (256 : Nat) ^ 8 = W := by norm_num [W]
    rw [h256, Nat.mod_eq_of_lt h]
  have ht : (toDigitsLE 8 n ++ rest).take 8 = toDigitsLE 8 n := by
    rw [List.take_append_of_le_length hl.ge, List.take_of_length_le hl.le]
  have hdrop : (toDigitsLE 8 n ++ rest).drop 8 = rest := by
    rw [List.drop_append_of_le_length hl.ge, List.drop_eq_nil_of_le hl.le,
        List.nil_append]
  unfold readSizeT
  rw [if_neg (by simp [hl]), ht, hdrop, hd]

/-! ### Helper lemmas about the single-value broadcast loop -/

/-- Exactly `i` consecutive copies of a block, appended in loop order. -/
def blocks (src : List Nat) : Nat → List Nat
  | 0 => []
  | i + 1 => blocks src i ++ src

theorem blocks_length (src : List Nat) (i : Nat) :
    (blocks src i).length = i * src.length := by
  induction i with
  | zero => simp [blocks]
  | succ i ih => simp [blocks, ih, Nat.succ_mul]

theorem readBytes_blocks {src : List Nat} {i j : Nat} (hj : j < i) :
    readBytes (blocks src i) (j * src.length) src.length = src := by
  induction i with
  | zero => omega
  | succ i ih =>
    rcases Nat.lt_succ_iff_lt_or_eq.mp hj with h | h
    · rw [blocks, readBytes_append_left]
      · exact ih h
      · rw [blocks_length]
        have h2 : (j + 1) * src.length ≤ i * src.length :=
          Nat.mul_le_mul_right _ h
        rw [Nat.succ_mul] at h2
        omega
    · subst h
      rw [blocks]
      unfold readBytes
      rw [← blocks_length src j, List.drop_left, List.take_length]

theorem broadcastLoop_spec {es : Nat} {values d : List Nat} {i : Nat}
    (hes : es ≤ values.length) (hlen : i * es ≤ d.length) (hW : d.length < W) :
    broadcastLoop es values d i = blocks (values.take es) i ++ d.drop (i * es) := by
  induction i with
  | zero => simp [broadcastLoop, blocks]
  | succ i ih =>
    have hsrc : (values.take es).length = es := by simp [List.length_take]; omega
    have hstep : i * es ≤ d.length := by
      rw [Nat.add_mul] at hlen; omega
    have hbl : (blocks (values.take es) i).length = i * es := by
      rw [blocks_length, hsrc]
    have hmod : (i * es) % W = i * es := Nat.mod_eq_of_lt (by omega)
    show writeBytes (broadcastLoop es values d i) ((i * es) % W) (values.take es) = _
    rw [ih hstep, hmod]
    unfold writeBytes
    rw [hsrc]
    have h1 : (blocks (values.take es) i ++ d.drop (i * es)).take (i * es)
        = blocks (values.take es) i := by
      conv_lhs => rw [← hbl]
      exact List.take_left _ _
    have h2 : (blocks (values.take es) i ++ d.drop (i * es)).drop (i * es + es)
        = d.drop ((i + 1) * es) := by
      conv_lhs => rw [← hbl]
      rw [List.drop_append, List.drop_drop, hbl, Nat.add_mul, Nat.one_mul]
    rw [h1, h2, blocks]

/-! ### Claim theorems -/

/-- C8: for every public operation, passing a `NULL` container handle yields
that operation's recoverable failure sentinel (`none` for reference returns,
`-1` for status returns, `0` for `length`/`capacity`, `true` for `is_empty`)
with no container state produced or mutated.  `vector_set` returns no value
and is included for its silent no-op; `vector_sort`/`vector_free` return no
value at all and have no sentinel to state. -/
theorem null_handle_sentinels :
    (∀ index, _vector_at none index = none) ∧
    vector_length none = 0 ∧
    vector_capacity none = 0 ∧
    vector_is_empty none = true ∧
    vector_clear none = (-1, none) ∧
    vector_copy none = none ∧
    (∀ index num_elements, vector_remove none index num_elements = (-1, none)) ∧
    (∀ new_capacity, vector_reserve none new_capacity = (-1, none)) ∧
    (∀ new_length, vector_resize none new_length = (-1, none)) ∧
    vector_serialize none = none ∧
    vector_shrink_to_fit none = (-1, none) ∧
    (∀ idx1 idx2, vector_swap none idx1 idx2 = (-1, none)) ∧
    (∀ num_values values, vector_append none num_values values = (-1, none)) ∧
    (∀ index num_values values,
      vector_insert none index num_values values = (-1, none)) ∧
    (∀ num_values values, vector_prepend none num_values values = (-1, none)) ∧
    vector_pop none = (none, none, 0) ∧
    (∀ dest, vector_pop_to none dest = (-1, none, dest, 0)) ∧
    (∀ value element_size compar,
      _vector_find_internal none value element_size compar = -1) ∧
    (∀ index value, vector_set none index value = none) :=
  ⟨fun _ => rfl, rfl, rfl, rfl, rfl, rfl, fun _ _ => rfl, fun _ => rfl,
   fun _ => rfl, rfl, rfl, fun _ _ => rfl, fun _ _ => rfl, fun _ _ _ => rfl,
   fun _ _ => rfl, rfl, fun _ => rfl, fun _ _ _ => rfl, fun _ _ => rfl⟩

/-- C3: the claim is right and the code is wrong.  `_vector_remove_internal`
evaluates `index + num_elements > vec->length` in `size_t`, so at
`index = 1`, `count = SIZE_MAX` on a length-2, capacity-2 container the sum
wraps to 0, the bounds check passes, and the call "succeeds" (status 0)
mutating the buffer out of bounds and setting `length = 3 > capacity`,
where the claim — `index + count ≤ length` read over unbounded integers,
so `1 + SIZE_MAX > 2` — requires failure with the container unchanged. -/
theorem remove_wraparound_unchecked :
    _vector_remove_internal ⟨[1, 2], 2, 2, 1⟩ 1 (W - 1) = (0, ⟨[1, 1, 2], 3, 2, 1⟩) ∧
    ¬ (1 + (W - 1) ≤ 2) := by decide

/-- C5: the claim is right and the code is wrong.  The state reached from
creation of `[1,2]` by the single public call `vector_remove(v, 1, SIZE_MAX)`
has `length = 3 > capacity = 2` (the wrapping bounds check of
`_vector_remove_internal` lets the call through and `length -= num_elements`
wraps upward), refuting `length ≤ capacity` for all reachable states. -/
theorem invariant_violation_reachable :
    _vector_create_with_values 1 2 2 [1, 2] = some ⟨[1, 2], 2, 2, 1⟩ ∧
    (vector_remove (some ⟨[1, 2], 2, 2, 1⟩) 1 (W - 1)).1 = 0 ∧
    vector_capacity (vector_remove (some ⟨[1, 2], 2, 2, 1⟩) 1 (W - 1)).2 <
      vector_length (vector_remove (some ⟨[1, 2], 2, 2, 1⟩) 1 (W - 1)).2 := by decide

/-- C1 counterexample: `_vector_resize_internal` grows by doubling, not by
the `max(capacity + capacity/2, required_total)` policy the claim states for
resize: from capacity 2 with requirement 3 the code reaches capacity 4,
while the claimed policy gives `max(2 + 2/2, 3) = 3`. -/
theorem resize_growth_not_onepointfive_cex :
    (_vector_resize_internal ⟨[1, 2], 2, 2, 1⟩ 3).1 = 0 ∧
    (_vector_resize_internal ⟨[1, 2], 2, 2, 1⟩ 3).2.capacity = 4 ∧
    (4 : Nat) ≠ max (2 + 2 / 2) 3 := by decide

/-- C2 counterexample: with element size 1, `n = 2` and the single initial
value `[5]` (so `0 < k = 1 < n`), creation yields `[5, 5]` — the value is
broadcast — not the claimed `[5, 0]`; and with `k = 1 > n = 0` creation
succeeds with an empty container instead of returning the null failure. -/
theorem create_values_zero_fill_cex :
    (_vector_create_with_values 1 2 1 [5] = some ⟨[5, 5], 2, 2, 1⟩ ∧
      some (vector.mk [5, 5] 2 2 1) ≠ some (vector.mk [5, 0] 2 2 1)) ∧
    _vector_create_with_values 1 0 1 [5] = some ⟨[], 0, 0, 1⟩ := by decide

theorem SIZE_MAX_lt_W : SIZE_MAX < W := by norm_num [SIZE_MAX, W]

/-- C9: a second `shrink_to_fit` right after a first one leaves the capacity
the first produced (the second call hits the `capacity == length` no-op), and
a successful shrink of an empty container frees the buffer (`data = []`, the
`NULL` model) and zeroes the capacity. -/
theorem shrink_to_fit_props :
    (∀ v : vector,
      (_vector_shrink_to_fit_internal (_vector_shrink_to_fit_internal v).2).2.capacity =
        (_vector_shrink_to_fit_internal v).2.capacity) ∧
    (∀ v : vector, v.length = 0 → v.data.length = v.capacity * v.element_size →
      (_vector_shrink_to_fit_internal v).1 = 0 ∧
      (_vector_shrink_to_fit_internal v).2.data = [] ∧
      (_vector_shrink_to_fit_internal v).2.capacity = 0) := by
  constructor
  · intro v
    by_cases h : v.capacity = v.length
    · simp [_vector_shrink_to_fit_internal, h]
    · cases hm : _safe_mul v.length v.element_size with
      | none => simp [_vector_shrink_to_fit_internal, h, hm]
      | some ns => simp [_vector_shrink_to_fit_internal, h, hm]
  · intro v h0 hdata
    by_cases h : v.capacity = v.length
    · have hnil : v.data = [] := by
        have : v.data.length = 0 := by rw [hdata, h, h0]; simp
        exact List.eq_nil_of_length_eq_zero this
      simp [_vector_shrink_to_fit_internal, h, hnil]
      exact h0
    · have hm : _safe_mul 0 v.element_size = some 0 := by simp [_safe_mul]
      have hc : ¬ v.capacity = 0 := fun hh => h (by rw [hh, h0])
      simp [_vector_shrink_to_fit_internal, h, hm, h0, hc]

/-- C9 witness: shrinking `⟨[1,2,170],2,3,1⟩` twice gives the capacity of
one shrink, and a successful shrink of the empty-length `⟨[170,170],0,2,1⟩`
reaches the freed null-buffer state. -/
theorem shrink_to_fit_props_witness :
    (_vector_shrink_to_fit_internal
        (_vector_shrink_to_fit_internal ⟨[1, 2, 170], 2, 3, 1⟩).2).2.capacity =
      (_vector_shrink_to_fit_internal ⟨[1, 2, 170], 2, 3, 1⟩).2.capacity ∧
    ((_vector_shrink_to_fit_internal ⟨[170, 170], 0, 2, 1⟩).1 = 0 ∧
     (_vector_shrink_to_fit_internal ⟨[170, 170], 0, 2, 1⟩).2.data = [] ∧
     (_vector_shrink_to_fit_internal ⟨[170, 170], 0, 2, 1⟩).2.capacity = 0) :=
  ⟨shrink_to_fit_props.1 _, shrink_to_fit_props.2 _ rfl (by decide)⟩

/-- C6: `vector_pop` on an empty container returns the `NULL` "empty"
sentinel, makes no allocator call (the call count is 0) and leaves the
container unchanged; `vector_pop_to` on an empty container returns `-1` and
leaves the destination bytes untouched; on a non-empty container
`vector_pop_to` returns 0, copies the last element's bytes into the
destination and decrements the length, again with zero allocator calls.
`vector_pop_to` itself is modelled from the spec (its implementation is not
among the source files); the `vector_pop` facts are from the code. -/
theorem pop_empty_and_pop_to :
    (∀ v : vector, v.length = 0 → vector_pop (some v) = (none, some v, 0)) ∧
    (∀ (v : vector) (dest : List Nat), v.length = 0 →
      vector_pop_to (some v) dest = (-1, some v, dest, 0)) ∧
    (∀ (v : vector) (dest : List Nat), WF v → v.length ≠ 0 →
      (vector_pop_to (some v) dest).1 = 0 ∧
      vector_length (vector_pop_to (some v) dest).2.1 = v.length - 1 ∧
      (vector_pop_to (some v) dest).2.2.1 =
        writeBytes dest 0 (elem v (v.length - 1)) ∧
      (vector_pop_to (some v) dest).2.2.2 = 0) := by
  refine ⟨?_, ?_, ?_⟩
  · intro v h
    simp [vector_pop, _vector_pop_core, h]
  · intro v dest h
    simp [vector_pop_to, h]
  · intro v dest hwf h
    obtain ⟨h1, h2, h3, h4, h5⟩ := hwf
    have hmod : ((v.length - 1) * v.element_size) % W = (v.length - 1) * v.element_size := by
      apply Nat.mod_eq_of_lt
      have hle : (v.length - 1) * v.element_size ≤ v.capacity * v.element_size :=
        Nat.mul_le_mul_right _ (by omega)
      have hSW := SIZE_MAX_lt_W
      omega
    simp [vector_pop_to, h, elem, hmod, vector_length]

/-- C6 witness: the three parts at concrete containers. -/
theorem pop_empty_and_pop_to_witness :
    vector_pop (some ⟨[], 0, 0, 4⟩) = (none, some ⟨[], 0, 0, 4⟩, 0) ∧
    vector_pop_to (some ⟨[], 0, 0, 4⟩) [9, 9, 9, 9] =
      (-1, some ⟨[], 0, 0, 4⟩, [9, 9, 9, 9], 0) ∧
    ((vector_pop_to (some ⟨[10, 20], 2, 2, 1⟩) [9]).1 = 0 ∧
     vector_length (vector_pop_to (some ⟨[10, 20], 2, 2, 1⟩) [9]).2.1 = 2 - 1 ∧
     (vector_pop_to (some ⟨[10, 20], 2, 2, 1⟩) [9]).2.2.1 =
       writeBytes [9] 0 (elem ⟨[10, 20], 2, 2, 1⟩ (2 - 1)) ∧
     (vector_pop_to (some ⟨[10, 20], 2, 2, 1⟩) [9]).2.2.2 = 0) :=
  ⟨pop_empty_and_pop_to.1 _ rfl, pop_empty_and_pop_to.2.1 _ _ rfl,
   pop_empty_and_pop_to.2.2 _ _ (by decide) (by decide)⟩

/-- C10: creating a container of `n > 1` elements from exactly one initial
value broadcasts that value: creation succeeds with length `n` and every one
of the `n` slots holds the value's bytes (not just the first slot with the
rest zero-filled). -/
theorem broadcast_fill_confirmed (es n : Nat) (values : List Nat)
    (hes : 0 < es) (hval : es ≤ values.length) (hbound : n * es ≤ SIZE_MAX)
    (hn : 1 < n) :
    ∃ v, _vector_create_with_values es n 1 values = some v ∧ v.length = n ∧
      ∀ j, j < n → elem v j = values.take es := by
  have hm : _safe_mul es n = some (es * n) :=
    _safe_mul_eq (by rw [Nat.mul_comm]; exact hbound)
  have hW : n * es < W := by have := SIZE_MAX_lt_W; omega
  have hsrc : (values.take es).length = es := by simp [List.length_take]; omega
  have hdata : broadcastLoop es values (List.replicate (n * es) 0) n
      = blocks (values.take es) n := by
    rw [broadcastLoop_spec hval (by simp) (by simpa using hW)]
    simp [List.drop_replicate]
  refine ⟨⟨blocks (values.take es) n, n, n, es⟩, ?_, rfl, ?_⟩
  · unfold _vector_create_with_values _vector_create_base
    rw [hm]
    simp [hdata]
  · intro j hj
    have h := @readBytes_blocks (values.take es) n j hj
    rw [hsrc] at h
    exact h

/-- C10 witness: one value `[5]`, three slots, every slot reads back `[5]`. -/
theorem broadcast_fill_confirmed_witness :
    ∃ v, _vector_create_with_values 1 3 1 [5] = some v ∧ v.length = 3 ∧
      ∀ j, j < 3 → elem v j = [5].take 1 :=
  broadcast_fill_confirmed 1 3 [5] (by decide) (by decide) (by decide) (by decide)

/-- C2 (amended): for `2 ≤ k < n` initial values creation succeeds with
length `n`, the first `k` elements the given values and the remaining
`n - k` elements zero-filled; for `k > n` with `k ≥ 2` creation returns the
null failure; a single value with `n = 0` (the `k = 1 > n` case the original
claim covered) instead succeeds with an empty container — and `k = 1 < n`
broadcasts, per the counterexample. -/
theorem create_with_values_amended :
    (∀ (es n k : Nat) (values : List Nat), 0 < es → 2 ≤ k → k < n →
      n * es ≤ SIZE_MAX → values.length = k * es →
      _vector_create_with_values es n k values =
        some ⟨values ++ List.replicate ((n - k) * es) 0, n, n, es⟩) ∧
    (∀ (es n k : Nat) (values : List Nat), 2 ≤ k → n < k →
      _vector_create_with_values es n k values = none) ∧
    (∀ (es : Nat) (values : List Nat),
      _vector_create_with_values es 0 1 values = some ⟨[], 0, 0, es⟩) := by
  refine ⟨?_, ?_, ?_⟩
  · intro es n k values hes hk hkn hbound hv
    have hm : _safe_mul es n = some (es * n) :=
      _safe_mul_eq (by rw [Nat.mul_comm]; exact hbound)
    have hkne : (k * es) % W = k * es := by
      apply Nat.mod_eq_of_lt
      have hmul : k * es ≤ n * es := Nat.mul_le_mul_right _ (le_of_lt hkn)
      have := SIZE_MAX_lt_W
      omega
    have hk0 : ¬ (k = 0) := by omega
    have hk1 : ¬ (k = 1) := by omega
    have hkn' : k ≤ n := le_of_lt hkn
    unfold _vector_create_with_values _vector_create_base
    rw [hm]
    simp only [hk0, hk1, hkn', if_false, if_true]
    rw [hkne, ← hv, List.take_length, writeBytes_zero, List.drop_replicate, hv,
        Nat.sub_mul]
  · intro es n k values hk hnk
    unfold _vector_create_with_values
    cases hb : _vector_create_base es n with
    | none => rfl
    | some vec =>
      have hk0 : ¬ (k = 0) := by omega
      have hk1 : ¬ (k = 1) := by omega
      have hkn : ¬ (k ≤ n) := by omega
      simp [hk0, hk1, hkn]
  · intro es values
    have hm : _safe_mul es 0 = some 0 := by simp [_safe_mul]
    unfold _vector_create_with_values _vector_create_base
    rw [hm]
    simp [broadcastLoop]

/-- C2 witness: `k = 3` values into `n = 4` slots of size 1 give the values
followed by one zero; `k = 3 > n = 2` fails; one value into zero slots gives
the empty container. -/
theorem create_with_values_amended_witness :
    _vector_create_with_values 1 4 3 [4, 9, 6] =
      some ⟨[4, 9, 6] ++ List.replicate ((4 - 3) * 1) 0, 4, 4, 1⟩ ∧
    _vector_create_with_values 1 2 3 [4, 9, 6] = none ∧
    _vector_create_with_values 1 0 1 [5] = some ⟨[], 0, 0, 1⟩ :=
  ⟨create_with_values_amended.1 1 4 3 [4, 9, 6] (by decide) (by decide)
      (by decide) (by decide) (by decide),
   create_with_values_amended.2.1 1 2 3 [4, 9, 6] (by decide) (by decide),
   create_with_values_amended.2.2 1 [5]⟩

/-- C4: serializing any well-formed container (the empty one included) and
deserializing the stream with the matching element size succeeds and yields a
container with the same length whose elements read back byte-identical, in
index order. -/
theorem serialize_deserialize_roundtrip (v : vector) (h : WF v) :
    ∃ w, _vector_deserialize_internal (_vector_serialize_internal v) v.element_size
        = some w ∧ w.length = v.length ∧ ∀ i, i < v.length → elem w i = elem v i := by
  obtain ⟨hlc, hce, hdl, hes, hesM⟩ := h
  have hSW := SIZE_MAX_lt_W
  have hLes : v.length * v.element_size ≤ v.capacity * v.element_size :=
    Nat.mul_le_mul_right _ hlc
  have hL : v.length < W := by
    have h1 : v.length ≤ v.length * v.element_size := Nat.le_mul_of_pos_right _ hes
    omega
  have hE : v.element_size < W := by omega
  have hmod : (v.length * v.element_size) % W = v.length * v.element_size :=
    Nat.mod_eq_of_lt (by omega)
  have hm : _safe_mul v.element_size v.length = some (v.element_size * v.length) :=
    _safe_mul_eq (by rw [Nat.mul_comm]; omega)
  have hpay : (readBytes v.data 0 (v.length * v.element_size)).length
      = v.length * v.element_size := by
    simp [readBytes, List.length_take]
    omega
  have hw : writeBytes (List.replicate (v.length * v.element_size) 0) 0
      ((readBytes v.data 0 (v.length * v.element_size)).take
        (v.length * v.element_size))
      = readBytes v.data 0 (v.length * v.element_size) := by
    rw [List.take_of_length_le hpay.le, writeBytes_zero, hpay, List.drop_replicate]
    simp
  unfold _vector_serialize_internal _vector_deserialize_internal _vector_create_base
  rw [hmod, List.append_assoc, readSizeT_encode hL]
  dsimp only
  rw [readSizeT_encode hE]
  dsimp only
  rw [if_neg (by simp), hm]
  dsimp only
  rw [if_neg (by rw [hpay]; omega)]
  rw [hw]
  refine ⟨_, rfl, rfl, ?_⟩
  intro i hi
  have harr : (i + 1) * v.element_size ≤ v.length * v.element_size :=
    Nat.mul_le_mul_right _ (by omega)
  rw [Nat.add_mul, Nat.one_mul] at harr
  show readBytes ((v.data.drop 0).take (v.length * v.element_size))
      (i * v.element_size) v.element_size = elem v i
  rw [List.drop_zero]
  exact readBytes_take (by omega)

/-- C4 witness: the round trip at `[1,2,3]` with element size 1 and at the
empty container with element size 4. -/
theorem serialize_deserialize_roundtrip_witness :
    (∃ w, _vector_deserialize_internal
        (_vector_serialize_internal ⟨[1, 2, 3], 3, 3, 1⟩) 1 = some w ∧
      w.length = 3 ∧ ∀ i, i < 3 → elem w i = elem ⟨[1, 2, 3], 3, 3, 1⟩ i) ∧
    (∃ w, _vector_deserialize_internal
        (_vector_serialize_internal ⟨[], 0, 0, 4⟩) 4 = some w ∧
      w.length = 0 ∧ ∀ i, i < 0 → elem w i = elem ⟨[], 0, 0, 4⟩ i) :=
  ⟨serialize_deserialize_roundtrip ⟨[1, 2, 3], 3, 3, 1⟩ (by decide),
   serialize_deserialize_roundtrip ⟨[], 0, 0, 4⟩ (by decide)⟩

theorem _safe_mul_some {a b x : Nat} (h : _safe_mul a b = some x) :
    x = a * b ∧ a * b ≤ SIZE_MAX := by
  unfold _safe_mul at h
  by_cases hc : a ≠ 0 ∧ b > SIZE_MAX / a
  · rw [if_pos hc] at h; cases h
  · rw [if_neg hc] at h
    injection h with h
    subst h
    refine ⟨rfl, ?_⟩
    push_neg at hc
    by_cases ha : a = 0
    · subst ha; simp
    · have hb : b ≤ SIZE_MAX / a := hc ha
      have h2 := (Nat.le_div_iff_mul_le (Nat.pos_of_ne_zero ha)).mp hb
      rwa [Nat.mul_comm] at h2


/-- C7: whenever `_vector_resize_internal` reports success it sets the length
to exactly `new_length`; every element index newly exposed by a growing
resize reads back as all-zero bytes; and a shrinking resize leaves the
capacity untouched and preserves the surviving prefix elements byte for
byte. -/
theorem resize_semantics (v : vector) (nl : Nat) (hwf : WF v)
    (hs : (_vector_resize_internal v nl).1 = 0) :
    (_vector_resize_internal v nl).2.length = nl ∧
    (∀ i, v.length ≤ i → i < nl →
      elem (_vector_resize_internal v nl).2 i = List.replicate v.element_size 0) ∧
    (nl < v.length →
      (_vector_resize_internal v nl).2.capacity = v.capacity ∧
      ∀ i, i < nl → elem (_vector_resize_internal v nl).2 i = elem v i) := by
  obtain ⟨hlc, hce, hdl, hes, hesM⟩ := hwf
  have hSW := SIZE_MAX_lt_W
  have hlces : v.length * v.element_size ≤ v.capacity * v.element_size :=
    Nat.mul_le_mul_right _ hlc
  have hmod1 : (v.length * v.element_size) % W = v.length * v.element_size :=
    Nat.mod_eq_of_lt (by omega)
  by_cases hgrow : v.capacity < nl
  · -- growth branch: reserve to the doubled-or-floored capacity
    unfold _vector_resize_internal _vector_reserve_internal at hs ⊢
    simp only [gt_iff_lt] at hs ⊢
    rw [if_pos hgrow] at hs ⊢
    set nc0 := if v.capacity ≠ 0 then v.capacity * 2 % W else nl with hnc0
    set nc := if nc0 < nl then nl else nc0 with hnc
    have hnlnc : nl ≤ nc := by
      rw [hnc]; split
      · exact Nat.le_refl nl
      · omega
    have hncgt : ¬ (nc ≤ v.capacity) := by omega
    rw [if_neg hncgt] at hs ⊢
    cases hsm : _safe_mul nc v.element_size with
    | none =>
      rw [hsm] at hs
      simp at hs
    | some ns =>
      obtain ⟨rfl, hbound⟩ := _safe_mul_some hsm
      rw [hsm] at hs
      dsimp only at hs ⊢
      rw [if_neg (show ¬ ((0 : Int) = -1) by decide)] at hs ⊢
      dsimp only at hs ⊢
      have hlengt : v.length < nl := by omega
      rw [if_pos hlengt]
      have hmod2 : ((nl - v.length) * v.element_size) % W
          = (nl - v.length) * v.element_size := by
        apply Nat.mod_eq_of_lt
        have h5 : (nl - v.length) * v.element_size ≤ nc * v.element_size :=
          Nat.mul_le_mul_right _ (by omega)
        omega
      rw [hmod1, hmod2]
      refine ⟨rfl, ?_, ?_⟩
      · intro i h1 h2
        have hoff : v.length * v.element_size
            ≤ (reallocBytes v.data (nc * v.element_size)).length := by
          rw [length_reallocBytes]
          exact Nat.mul_le_mul_right _ (by omega)
        have hsplit : i * v.element_size
            = v.length * v.element_size + (i - v.length) * v.element_size := by
          rw [← Nat.add_mul]
          congr 1
          omega
        have h4 : (i - v.length + 1) * v.element_size
            ≤ (nl - v.length) * v.element_size :=
          Nat.mul_le_mul_right _ (by omega)
        rw [Nat.add_mul, Nat.one_mul] at h4
        unfold elem
        dsimp only
        rw [hsplit, readBytes_writeBytes_window hoff (by simpa using h4)]
        exact readBytes_replicate 0 (by omega)
      · intro hlt
        exact absurd hlt (by omega)
  · -- no growth: capacity is untouched
    unfold _vector_resize_internal at hs ⊢
    simp only [gt_iff_lt] at hs ⊢
    rw [if_neg hgrow] at hs ⊢
    dsimp only at hs ⊢
    by_cases hlen2 : v.length < nl
    · rw [if_pos hlen2]
      have hmod2 : ((nl - v.length) * v.element_size) % W
          = (nl - v.length) * v.element_size := by
        apply Nat.mod_eq_of_lt
        have h5 : (nl - v.length) * v.element_size ≤ v.capacity * v.element_size :=
          Nat.mul_le_mul_right _ (by omega)
        omega
      rw [hmod1, hmod2]
      refine ⟨rfl, ?_, ?_⟩
      · intro i h1 h2
        have hoff : v.length * v.element_size ≤ v.data.length := by omega
        have hsplit : i * v.element_size
            = v.length * v.element_size + (i - v.length) * v.element_size := by
          rw [← Nat.add_mul]
          congr 1
          omega
        have h4 : (i - v.length + 1) * v.element_size
            ≤ (nl - v.length) * v.element_size :=
          Nat.mul_le_mul_right _ (by omega)
        rw [Nat.add_mul, Nat.one_mul] at h4
        unfold elem
        dsimp only
        rw [hsplit, readBytes_writeBytes_window hoff (by simpa using h4)]
        exact readBytes_replicate 0 (by omega)
      · intro hlt
        exact absurd hlt (by omega)
    · rw [if_neg hlen2]
      exact ⟨rfl, fun i h1 h2 => absurd h2 (by omega),
        fun hlt => ⟨rfl, fun i hi => rfl⟩⟩

/-- C7 witness: growing `[1,2,3]` to 5 zero-fills the new slots, and
shrinking the grown container back to 2 keeps capacity 6 and the prefix. -/
theorem resize_semantics_witness :
    ((_vector_resize_internal ⟨[1, 2, 3], 3, 3, 1⟩ 5).2.length = 5 ∧
     (∀ i, 3 ≤ i → i < 5 →
       elem (_vector_resize_internal ⟨[1, 2, 3], 3, 3, 1⟩ 5).2 i = List.replicate 1 0) ∧
     (5 < 3 →
       (_vector_resize_internal ⟨[1, 2, 3], 3, 3, 1⟩ 5).2.capacity = 3 ∧
       ∀ i, i < 5 → elem (_vector_resize_internal ⟨[1, 2, 3], 3, 3, 1⟩ 5).2 i
         = elem ⟨[1, 2, 3], 3, 3, 1⟩ i)) ∧
    ((_vector_resize_internal ⟨[1, 2, 3, 0, 0, 170], 5, 6, 1⟩ 2).2.length = 2 ∧
     (∀ i, 5 ≤ i → i < 2 →
       elem (_vector_resize_internal ⟨[1, 2, 3, 0, 0, 170], 5, 6, 1⟩ 2).2 i
         = List.replicate 1 0) ∧
     (2 < 5 →
       (_vector_resize_internal ⟨[1, 2, 3, 0, 0, 170], 5, 6, 1⟩ 2).2.capacity = 6 ∧
       ∀ i, i < 2 → elem (_vector_resize_internal ⟨[1, 2, 3, 0, 0, 170], 5, 6, 1⟩ 2).2 i
         = elem ⟨[1, 2, 3, 0, 0, 170], 5, 6, 1⟩ i)) :=
  ⟨resize_semantics ⟨[1, 2, 3], 3, 3, 1⟩ 5 (by decide) (by decide),
   resize_semantics ⟨[1, 2, 3, 0, 0, 170], 5, 6, 1⟩ 2 (by decide) (by decide)⟩

/-- C1 (amended): under the growth-on-demand path, `append` and `insert`
grow capacity to the requested additional count when capacity is zero and to
`max(capacity + capacity/2, required_total)` otherwise — but `resize` grows
to `new_length` when capacity is zero and to `max(capacity * 2, new_length)`
otherwise (doubling, not 1.5×), as the counterexample forces.  The arithmetic
side conditions rule out `size_t` wraparound of the untrusted growth
expressions and let the checked byte-size computation succeed. -/
theorem growth_policy_amended :
    (∀ (v : vector) (nv : Nat) (values : List Nat),
      nv ≠ 0 → v.length ≤ v.capacity → v.length + nv ≤ SIZE_MAX →
      v.capacity < v.length + nv →
      v.capacity + v.capacity / 2 ≤ SIZE_MAX →
      (if v.capacity = 0 then nv
       else max (v.capacity + v.capacity / 2) (v.length + nv)) * v.element_size
        ≤ SIZE_MAX →
      (_vector_append_internal v nv values).1 = 0 ∧
      (_vector_append_internal v nv values).2.capacity =
        if v.capacity = 0 then nv
        else max (v.capacity + v.capacity / 2) (v.length + nv)) ∧
    (∀ (v : vector) (index nv : Nat) (values : List Nat),
      nv ≠ 0 → index ≤ v.length → v.length ≤ v.capacity →
      v.length + nv ≤ SIZE_MAX → v.capacity < v.length + nv →
      v.capacity + v.capacity / 2 ≤ SIZE_MAX →
      (if v.capacity = 0 then nv
       else max (v.capacity + v.capacity / 2) (v.length + nv)) * v.element_size
        ≤ SIZE_MAX →
      (_vector_insert_internal v index nv values).1 = 0 ∧
      (_vector_insert_internal v index nv values).2.capacity =
        if v.capacity = 0 then nv
        else max (v.capacity + v.capacity / 2) (v.length + nv)) ∧
    (∀ (v : vector) (nl : Nat),
      v.length ≤ v.capacity → v.capacity < nl → v.capacity * 2 ≤ SIZE_MAX →
      (if v.capacity = 0 then nl else max (v.capacity * 2) nl) * v.element_size
        ≤ SIZE_MAX →
      (_vector_resize_internal v nl).1 = 0 ∧
      (_vector_resize_internal v nl).2.capacity =
        if v.capacity = 0 then nl else max (v.capacity * 2) nl) := by
  have hSW := SIZE_MAX_lt_W
  refine ⟨?_, ?_, ?_⟩
  · intro v nv values hnv hlc hadd hcap hhalf hbound
    unfold _vector_append_internal
    simp only [gt_iff_lt]
    rw [if_neg hnv, _safe_add_eq hadd]
    dsimp only
    rw [if_pos hcap]
    by_cases hc0 : v.capacity = 0
    · rw [if_pos hc0] at hbound ⊢
      rw [if_neg (show ¬ (nv < v.length + nv) by omega)]
      rw [_safe_mul_eq hbound]
      exact ⟨rfl, by rw [if_pos hc0]⟩
    · rw [if_neg hc0] at hbound ⊢
      have hm0 : (v.capacity + v.capacity / 2) % W = v.capacity + v.capacity / 2 :=
        Nat.mod_eq_of_lt (by omega)
      rw [hm0]
      by_cases hlt : v.capacity + v.capacity / 2 < v.length + nv
      · have hmax : max (v.capacity + v.capacity / 2) (v.length + nv)
            = v.length + nv := Nat.max_eq_right (Nat.le_of_lt hlt)
        rw [hmax] at hbound ⊢
        rw [if_pos hlt, _safe_mul_eq hbound]
        exact ⟨rfl, by rw [if_neg hc0]⟩
      · have hmax : max (v.capacity + v.capacity / 2) (v.length + nv)
            = v.capacity + v.capacity / 2 := Nat.max_eq_left (Nat.not_lt.mp hlt)
        rw [hmax] at hbound ⊢
        rw [if_neg hlt, _safe_mul_eq hbound]
        exact ⟨rfl, by rw [if_neg hc0]⟩
  · intro v index nv values hnv hidx hlc hadd hcap hhalf hbound
    unfold _vector_insert_internal _vector_reserve_internal
    simp only [gt_iff_lt]
    rw [if_neg hnv, if_neg (show ¬ (v.length < index) by omega), _safe_add_eq hadd]
    dsimp only
    rw [if_pos hcap]
    by_cases hc0 : v.capacity = 0
    · rw [if_pos hc0] at hbound ⊢
      rw [if_neg (show ¬ (nv < v.length + nv) by omega)]
      rw [if_neg (show ¬ (nv ≤ v.capacity) by omega), _safe_mul_eq hbound]
      rw [if_neg (show ¬ ((0 : Int) = -1) by decide)]
      dsimp only
      exact ⟨rfl, by rw [if_pos hc0]⟩
    · rw [if_neg hc0] at hbound ⊢
      have hm0 : (v.capacity + v.capacity / 2) % W = v.capacity + v.capacity / 2 :=
        Nat.mod_eq_of_lt (by omega)
      rw [hm0]
      by_cases hlt : v.capacity + v.capacity / 2 < v.length + nv
      · have hmax : max (v.capacity + v.capacity / 2) (v.length + nv)
            = v.length + nv := Nat.max_eq_right (Nat.le_of_lt hlt)
        rw [hmax] at hbound ⊢
        rw [if_pos hlt]
        rw [if_neg (show ¬ (v.length + nv ≤ v.capacity) by omega),
            _safe_mul_eq hbound]
        rw [if_neg (show ¬ ((0 : Int) = -1) by decide)]
        dsimp only
        exact ⟨rfl, by rw [if_neg hc0]⟩
      · have hmax : max (v.capacity + v.capacity / 2) (v.length + nv)
            = v.capacity + v.capacity / 2 := Nat.max_eq_left (Nat.not_lt.mp hlt)
        rw [hmax] at hbound ⊢
        rw [if_neg hlt]
        rw [if_neg (show ¬ (v.capacity + v.capacity / 2 ≤ v.capacity) by omega),
            _safe_mul_eq hbound]
        rw [if_neg (show ¬ ((0 : Int) = -1) by decide)]
        dsimp only
        exact ⟨rfl, by rw [if_neg hc0]⟩
  · intro v nl hlc hcap hdub hbound
    unfold _vector_resize_internal _vector_reserve_internal
    simp only [gt_iff_lt]
    rw [if_pos hcap]
    by_cases hc0 : v.capacity = 0
    · rw [if_pos hc0] at hbound
      rw [if_neg (show ¬ (v.capacity ≠ 0) by simp [hc0])]
      rw [if_neg (Nat.lt_irrefl nl)]
      rw [if_neg (show ¬ (nl ≤ v.capacity) by omega), _safe_mul_eq hbound]
      rw [if_neg (show ¬ ((0 : Int) = -1) by decide)]
      dsimp only
      refine ⟨rfl, ?_⟩
      rw [if_pos hc0]
    · rw [if_neg hc0] at hbound
      have hm0 : v.capacity * 2 % W = v.capacity * 2 :=
        Nat.mod_eq_of_lt (by omega)
      rw [if_pos (show v.capacity ≠ 0 from hc0), hm0]
      by_cases hlt : v.capacity * 2 < nl
      · have hmax : max (v.capacity * 2) nl = nl := Nat.max_eq_right (Nat.le_of_lt hlt)
        rw [hmax] at hbound
        rw [if_pos hlt]
        rw [if_neg (show ¬ (nl ≤ v.capacity) by omega), _safe_mul_eq hbound]
        rw [if_neg (show ¬ ((0 : Int) = -1) by decide)]
        dsimp only
        refine ⟨rfl, ?_⟩
        rw [if_neg hc0, hmax]
      · have hmax : max (v.capacity * 2) nl = v.capacity * 2 :=
          Nat.max_eq_left (Nat.not_lt.mp hlt)
        rw [hmax] at hbound
        rw [if_neg hlt]
        rw [if_neg (show ¬ (v.capacity * 2 ≤ v.capacity) by omega),
            _safe_mul_eq hbound]
        rw [if_neg (show ¬ ((0 : Int) = -1) by decide)]
        dsimp only
        refine ⟨rfl, ?_⟩
        rw [if_neg hc0, hmax]

/-- C1 witness: appending/inserting one element into a full capacity-2
container grows to `max(3, 3) = 3`, while resizing it to 3 grows to
`max(4, 3) = 4`. -/
theorem growth_policy_amended_witness :
    ((_vector_append_internal ⟨[7, 8], 2, 2, 1⟩ 1 [9]).1 = 0 ∧
     (_vector_append_internal ⟨[7, 8], 2, 2, 1⟩ 1 [9]).2.capacity = 3) ∧
    ((_vector_insert_internal ⟨[7, 8], 2, 2, 1⟩ 0 1 [9]).1 = 0 ∧
     (_vector_insert_internal ⟨[7, 8], 2, 2, 1⟩ 0 1 [9]).2.capacity = 3) ∧
    ((_vector_resize_internal ⟨[1, 2], 2, 2, 1⟩ 3).1 = 0 ∧
     (_vector_resize_internal ⟨[1, 2], 2, 2, 1⟩ 3).2.capacity = 4) := by
  refine ⟨?_, ?_, ?_⟩
  · have h := growth_policy_amended.1 ⟨[7, 8], 2, 2, 1⟩ 1 [9] (by decide) (by decide)
      (by decide) (by decide) (by decide) (by decide)
    exact ⟨h.1, h.2.trans (by decide)⟩
  · have h := growth_policy_amended.2.1 ⟨[7, 8], 2, 2, 1⟩ 0 1 [9] (by decide)
      (by decide) (by decide) (by decide) (by decide) (by decide) (by decide)
    exact ⟨h.1, h.2.trans (by decide)⟩
  · have h := growth_policy_amended.2.2 ⟨[1, 2], 2, 2, 1⟩ 3 (by decide) (by decide)
      (by decide) (by decide)
    exact ⟨h.1, h.2.trans (by decide)⟩
